import Mathlib

/-!
Shallow embedding of the scoring-and-calibration core of the `agentjustice`
repository, together with theorems settling the frozen specification claims.

Conventions of the embedding:
* Python `float` values are modelled as exact rationals (`ℚ`); the spec
  arithmetic identities are stated over `ℚ`.
* Python strings are modelled as Lean `String`s; the character-level
  operations (`lower`, `strip`, `split`, substring test) are implemented
  over `List Char` so that they are kernel-computable.
* Python `None` is modelled with `Option`.
* Each definition carries a comment naming the source file and lines it
  embeds.
-/


/- ===================== core/types.py ===================== -/

/-- Embeds `ParsedValue` (src/core/types.py lines 57-63): a parsed numeric
value from an answer.  The optional `unit`/`context`/`original_text`
metadata is carried verbatim. -/
structure ParsedValue where
  value : ℚ
  unit : Option String := none
  context : Option String := none
  original_text : String := ""
deriving DecidableEq, Repr

/-- Embeds `JudgeOutput` (src/core/types.py lines 91-116): the structured
output of one judge call.  The audit-only fields `raw_output`,
`criteria_matches`, `contradiction_details` and the diff ratio (none of
which is read by any code under verification) are omitted. -/
structure JudgeOutput where
  judge_name : String := ""
  judge_version : String := ""
  score : ℚ := 0
  confidence : ℚ := 0
  reason : String := ""
  latency_ms : ℚ := 0
  prompt_hash : String := ""
  judge_ok : Bool := true
  parsed_model_values : List ParsedValue := []
  parsed_gold_values : List ParsedValue := []
  tolerance_used : Option ℚ := none
  violated : Option Bool := none
  failure_reason : Option String := none
deriving DecidableEq, Repr

/-- Embeds `HybridScore` (src/core/types.py lines 140-157): the final hybrid
score with penalty breakdown and flags. -/
structure HybridScore where
  exact_match : Bool
  semantic_score : ℚ
  numeric_score : ℚ
  contradiction_violated : Bool
  consistency_penalty : ℚ
  contradiction_penalty : ℚ
  hedging_penalty : ℚ
  final_score : ℚ
  confidence : ℚ
  consistency_flags : List String := []
  error_taxonomy : List String := []
deriving DecidableEq, Repr

/- ===================== config/settings.py ===================== -/

/-- Embeds `ScorerConfig` (src/config/settings.py lines 53-60): the five
tunable scorer parameters with their default values. -/
structure ScorerConfig where
  numeric_rel_tol : ℚ := 1/100
  semantic_conf_threshold : ℚ := 7/10
  consistency_penalty : ℚ := 1/5
  contradiction_penalty : ℚ := 1/2
  hedging_penalty : ℚ := 1/10
deriving DecidableEq, Repr

/-- The default configuration instance (src/config/settings.py line 157,
`scorer_config = ScorerConfig()`). -/
def scorer_config : ScorerConfig := {}

/- ===================== character-level string helpers =====================
Python string primitives used by the scorer, implemented over `List Char`. -/

/-- Embeds Python `str.lower()` applied to a character sequence. -/
def pyToLower (l : List Char) : List Char := l.map Char.toLower

/-- Embeds Python `str.strip()`: drop whitespace from both ends. -/
def pyStrip (l : List Char) : List Char :=
  ((l.dropWhile Char.isWhitespace).reverse.dropWhile Char.isWhitespace).reverse

/-- Embeds Python `str.split()` with no separator: split on runs of
whitespace, discarding empty pieces.  `acc` holds the reversed current
word. -/
def pyWordsAux : List Char → List Char → List (List Char)
  | [], acc => if acc = [] then [] else [acc.reverse]
  | c :: cs, acc =>
      if c.isWhitespace then
        if acc = [] then pyWordsAux cs [] else acc.reverse :: pyWordsAux cs []
      else pyWordsAux cs (c :: acc)

/-- Python `str.split()` with no separator. -/
def pyWords (l : List Char) : List (List Char) := pyWordsAux l []

/-- Embeds Python `pat in hay` substring containment on character lists. -/
def listContains (hay pat : List Char) : Bool :=
  match hay with
  | [] => decide (pat = [])
  | _ :: t => pat.isPrefixOf hay || listContains t pat

/- ===================== green_agent/scorer.py ===================== -/

/-- Embeds the local `normalize` of `HybridScorer.compute_exact_match`
(src/green_agent/scorer.py lines 56-57):
lowercase, strip, split on whitespace, join with single spaces — at the
character-list level. -/
def normalize_answer (l : List Char) : List Char :=
  List.intercalate [' '] (pyWords (pyStrip (pyToLower l)))

/-- Embeds `HybridScorer.compute_exact_match` (src/green_agent/scorer.py
lines 45-59): case-insensitive, whitespace-normalized string equality. -/
def compute_exact_match (model_answer gold_answer : String) : Bool :=
  decide (normalize_answer model_answer.data = normalize_answer gold_answer.data)

/-- Embeds `error_taxonomy` accumulation in `HybridScorer.compute`
(src/green_agent/scorer.py lines 91-96). -/
def error_taxonomy_of (semantic_output numeric_output contradiction_output : JudgeOutput) :
    List String :=
  (if semantic_output.judge_ok = false then ["semantic_judge_error"] else []) ++
  (if numeric_output.judge_ok = false then ["numeric_judge_error"] else []) ++
  (if contradiction_output.judge_ok = false then ["contradiction_judge_error"] else [])

/-- Embeds the score gating of `HybridScorer.compute`
(src/green_agent/scorer.py lines 99-100): the score of a failed judge is
replaced by `0.0`. -/
def gated_score (o : JudgeOutput) : ℚ := if o.judge_ok then o.score else 0

/-- Embeds the contradiction gating of `HybridScorer.compute`
(src/green_agent/scorer.py lines 104-106): `violated` is taken only when
the judge succeeded and reported a non-`None` value; otherwise `false`. -/
def contradiction_violated_of (o : JudgeOutput) : Bool :=
  if o.judge_ok then o.violated.getD false else false

/-- Embeds the base-score selection of `HybridScorer.compute`
(src/green_agent/scorer.py lines 113-129). -/
def base_score_of (semantic_output numeric_output : JudgeOutput) : ℚ :=
  if semantic_output.judge_ok = false ∧ numeric_output.judge_ok = false then 0
  else if semantic_output.judge_ok = false then gated_score numeric_output
  else if numeric_output.judge_ok = false then gated_score semantic_output
  else if numeric_output.tolerance_used = none ∨ numeric_output.parsed_gold_values = [] then
    gated_score semantic_output
  else gated_score semantic_output * (1/2) + gated_score numeric_output * (1/2)

/-- Embeds the flags appended during base-score selection
(src/green_agent/scorer.py lines 116 and 120): `all_judges_failed` when
both judges failed, `semantic_judge_unavailable` when only the semantic
judge failed. -/
def base_flags_of (semantic_output numeric_output : JudgeOutput) : List String :=
  if semantic_output.judge_ok = false ∧ numeric_output.judge_ok = false then
    ["all_judges_failed"]
  else if semantic_output.judge_ok = false then ["semantic_judge_unavailable"]
  else []

/-- Embeds the consistency-check condition of Case 1
(src/green_agent/scorer.py line 135): semantic pass and numeric fail. -/
def case1_cond (semantic_output numeric_output : JudgeOutput) : Prop :=
  semantic_output.judge_ok = true ∧ numeric_output.judge_ok = true ∧
    gated_score semantic_output > 4/5 ∧ gated_score numeric_output < 3/10

instance : ∀ s n, Decidable (case1_cond s n) := fun s n => by
  unfold case1_cond; infer_instance

/-- Embeds the consistency-check condition of Case 2
(src/green_agent/scorer.py line 142): numeric pass and semantic fail. -/
def case2_cond (semantic_output numeric_output : JudgeOutput) : Prop :=
  semantic_output.judge_ok = true ∧ numeric_output.judge_ok = true ∧
    gated_score numeric_output > 4/5 ∧ gated_score semantic_output < 3/10

instance : ∀ s n, Decidable (case2_cond s n) := fun s n => by
  unfold case2_cond; infer_instance

/-- Embeds the consistency-penalty accumulation of `HybridScorer.compute`
(src/green_agent/scorer.py lines 132-145): each firing case adds
`consistency_penalty * max(semantic_confidence, numeric_confidence)`. -/
def consistency_penalty_of (config : ScorerConfig)
    (semantic_output numeric_output : JudgeOutput) : ℚ :=
  (if case1_cond semantic_output numeric_output then
    config.consistency_penalty * max semantic_output.confidence numeric_output.confidence
   else 0) +
  (if case2_cond semantic_output numeric_output then
    config.consistency_penalty * max semantic_output.confidence numeric_output.confidence
   else 0)

/-- Embeds the consistency flags appended by the two cases
(src/green_agent/scorer.py lines 136 and 143). -/
def case_flags_of (semantic_output numeric_output : JudgeOutput) : List String :=
  (if case1_cond semantic_output numeric_output then ["numeric_error"] else []) ++
  (if case2_cond semantic_output numeric_output then ["wrong_metric"] else [])

/-- Embeds the contradiction-penalty computation of `HybridScorer.compute`
(src/green_agent/scorer.py lines 148-151). -/
def contradiction_penalty_of (config : ScorerConfig) (contradiction_output : JudgeOutput) : ℚ :=
  if contradiction_output.judge_ok = true ∧
      contradiction_violated_of contradiction_output = true then
    config.contradiction_penalty * contradiction_output.confidence
  else 0

/-- The fixed hedging lexicon of `HybridScorer.compute`
(src/green_agent/scorer.py lines 159-169). -/
def hedging_indicators : List String :=
  ["i\x27m not sure", "i am not sure", "not certain",
   "uncertain about", "unsure about", "unsure whether",
   "might be wrong", "could be wrong", "may be incorrect",
   "i don\x27t know", "i do not know", "cannot determine",
   "possibly incorrect", "potentially wrong",
   "i think it might", "i believe it could", "it seems like maybe",
   "this could possibly", "this might possibly"]

/-- Embeds the hedging count of `HybridScorer.compute`
(src/green_agent/scorer.py line 172): the number of lexicon phrases
contained in the lowercased model answer. -/
def hedging_count_of (model_answer : String) : Nat :=
  (hedging_indicators.filter
    (fun h => listContains (pyToLower model_answer.data) h.data)).length

/-- Embeds the hedging trigger of `HybridScorer.compute`
(src/green_agent/scorer.py lines 170-174): the answer is non-empty (Python
truthiness) and at least one lexicon phrase matched. -/
def hedged_cond (model_answer : String) : Prop :=
  model_answer ≠ "" ∧ 1 ≤ hedging_count_of model_answer

instance : ∀ m, Decidable (hedged_cond m) := fun m => by
  unfold hedged_cond; infer_instance

/-- Embeds the hedging penalty of `HybridScorer.compute`
(src/green_agent/scorer.py lines 158-176). -/
def hedging_penalty_of (config : ScorerConfig) (model_answer : String) : ℚ :=
  if hedged_cond model_answer then config.hedging_penalty else 0

/-- Embeds `HybridScorer.compute` (src/green_agent/scorer.py lines 61-198).
The `config` argument is the configuration of the scorer (`self.config`). -/
def compute (config : ScorerConfig)
    (semantic_output numeric_output contradiction_output : JudgeOutput)
    (model_answer gold_answer : String) : HybridScore :=
  let semantic_score := gated_score semantic_output
  let numeric_score := gated_score numeric_output
  let contradiction_violated := contradiction_violated_of contradiction_output
  let exact_match :=
    if model_answer ≠ "" ∧ gold_answer ≠ "" then
      compute_exact_match model_answer gold_answer
    else false
  let base_score := base_score_of semantic_output numeric_output
  let consistency_penalty := consistency_penalty_of config semantic_output numeric_output
  let contradiction_penalty_val := contradiction_penalty_of config contradiction_output
  let hedging_penalty_val := hedging_penalty_of config model_answer
  let contradiction_flags :=
    if contradiction_output.judge_ok = true ∧ contradiction_violated = true then
      ["contradiction_violated"]
    else []
  let hedge_flags := if hedged_cond model_answer then ["hedged_answer"] else []
  let total_penalty := consistency_penalty + contradiction_penalty_val + hedging_penalty_val
  let final_score := max 0 (base_score - total_penalty)
  let avg_confidence :=
    (semantic_output.confidence + numeric_output.confidence +
      contradiction_output.confidence) / 3
  { exact_match := exact_match
    semantic_score := semantic_score
    numeric_score := numeric_score
    contradiction_violated := contradiction_violated
    consistency_penalty := consistency_penalty
    contradiction_penalty := contradiction_penalty_val
    hedging_penalty := hedging_penalty_val
    final_score := final_score
    confidence := avg_confidence
    consistency_flags :=
      base_flags_of semantic_output numeric_output ++
      case_flags_of semantic_output numeric_output ++
      contradiction_flags ++ hedge_flags
    error_taxonomy := error_taxonomy_of semantic_output numeric_output contradiction_output }

/- ===================== shared concrete judge outputs ===================== -/

/-- A semantic judgment `{score: 0.9, confidence: 0.9, ok: true}`. -/
def J_sem_good : JudgeOutput := { score := 9/10, confidence := 9/10, judge_ok := true }

/-- A numeric judgment `{score: 0.1, confidence: 0.8, ok: true}` with
`tolerance_used = 0.01` and a non-empty parsed gold value list. -/
def J_num_low : JudgeOutput :=
  { score := 1/10, confidence := 4/5, judge_ok := true,
    tolerance_used := some (1/100), parsed_gold_values := [({ value := 42 } : ParsedValue)] }

/-- A contradiction judgment `{violated: false, confidence: 0.5, ok: true}`. -/
def J_con_ok : JudgeOutput := { confidence := 1/2, judge_ok := true, violated := some false }

/-- A failed judge call (`ok = false`). -/
def J_failed : JudgeOutput := { judge_ok := false }

/-- A successful contradiction call that reports `violated = unknown`. -/
def J_con_unknown : JudgeOutput := { judge_ok := true, violated := none }

/- ===================== calibration/cv.py : split generation =====================
`KFoldCV.generate_splits` shuffles `range(n_samples)` with the Python
`random.Random(seed).shuffle` (a Fisher–Yates pass over the list driven by
the seeded Mersenne Twister) and cuts the permuted list into `K` contiguous
folds.  The pseudo-random stream is external to the repository, so it is
abstracted here as a function `rand : seed → step → value`; every claim
proved below holds for every such stream. -/

/-- Embeds `KFoldCV.__init__` (src/calibration/cv.py lines 47-63) with its
default arguments. -/
structure KFoldCV where
  n_folds : Nat := 5
  n_repeats : Nat := 5
  random_seed : Nat := 42
deriving DecidableEq, Repr

/-- One in-place swap `x[i], x[j] = x[j], x[i]` of the Fisher–Yates pass;
out-of-range indices leave the list unchanged (they never occur in the
actual pass). -/
def listSwap {α : Type _} (x : List α) (i j : Nat) : List α :=
  match x[i]?, x[j]? with
  | some xi, some xj => (x.set i xj).set j xi
  | _, _ => x

/-- Modelled from the spec: Python stdlib `random.Random.shuffle` runs
`for i in reversed(range(1, len(x))): j = _randbelow(i+1); swap x[i], x[j]`.
`shuffleLoop rand i x` processes loop indices `i, i-1, …, 1`; `% (i+1)`
records the `_randbelow(i+1) < i+1` guarantee for an arbitrary stream. -/
def shuffleLoop {α : Type _} (rand : Nat → Nat) : Nat → List α → List α
  | 0, x => x
  | i + 1, x => shuffleLoop rand i (listSwap x (i + 1) (rand (i + 1) % (i + 2)))

/-- Modelled from the spec: Python stdlib `random.Random.shuffle` on a list,
with the random source abstracted. -/
def pyShuffle {α : Type _} (rand : Nat → Nat) (x : List α) : List α :=
  shuffleLoop rand (x.length - 1) x

/-- Embeds the body of the repeat loop of `KFoldCV.generate_splits`
(src/calibration/cv.py lines 80-98): shuffle `range(n_samples)` with the
seed `random_seed + repeat_idx`, then emit one
`(repeat_idx, fold_idx, train_indices, test_indices)` tuple per fold;
`test = indices[start:stop]`, `train = indices[:start] + indices[stop:]`,
where the last fold absorbs the division remainder. -/
def split_block (cv : KFoldCV) (rand : Nat → Nat → Nat) (n_samples : Nat)
    (repeat_idx : Nat) : List (Nat × Nat × List Nat × List Nat) :=
  let indices := pyShuffle (rand (cv.random_seed + repeat_idx)) (List.range n_samples)
  let fold_size := n_samples / cv.n_folds
  (List.range cv.n_folds).map (fun fold_idx =>
    let start := fold_idx * fold_size
    let stop := if fold_idx < cv.n_folds - 1 then start + fold_size else n_samples
    (repeat_idx, fold_idx, indices.take start ++ indices.drop stop,
      (indices.drop start).take (stop - start)))

/-- Embeds `KFoldCV.generate_splits` (src/calibration/cv.py lines 65-100):
the concatenation of the fold tuples of every repeat. -/
def generate_splits (cv : KFoldCV) (rand : Nat → Nat → Nat) (n_samples : Nat) :
    List (Nat × Nat × List Nat × List Nat) :=
  ((List.range cv.n_repeats).map (split_block cv rand n_samples)).flatten

/- ===================== calibration/stability.py ===================== -/

/-- Embeds `Task` (src/core/types.py lines 12-33; named `EvalTask` here because `Task` is taken by the Lean core library): one evaluation task with
its metadata; a rubric entry (Python `Dict[str, str]`) is a key/value
list. -/
structure EvalTask where
  task_id : Int
  question : String
  gold_answer : String
  rubric : List (List (String × String)) := []
  question_type : String := ""
  expert_time_mins : ℚ := 0
  difficulty_level : String := ""
  source : String := "canonical"
  parent_id : Option Int := none
  transformation_type : Option String := none
  expected_outcome : Option String := none
  candidate_answer : Option String := none
  notes : Option String := none
deriving DecidableEq, Repr

/-- Embeds `np.mean` on a score list (the numpy NaN on an empty list becomes
`0/0 = 0` here; the scorer only applies it to non-empty lists). -/
def npMean (l : List ℚ) : ℚ := l.sum / l.length

/-- The population variance of a score list: the square of `np.std`
(the numpy default `ddof = 0`). -/
def npVariance (l : List ℚ) : ℚ :=
  ((l.map (fun x => (x - npMean l) ^ 2)).sum) / l.length

/-- Embeds `np.min` on a non-empty list. -/
def npMin (l : List ℚ) : ℚ :=
  match l with
  | [] => 0
  | x :: xs => xs.foldl min x

/-- Embeds `np.max` on a non-empty list. -/
def npMax (l : List ℚ) : ℚ :=
  match l with
  | [] => 0
  | x :: xs => xs.foldl max x

/-- Embeds `np.std` (population standard deviation): the square root of the
variance, landing in `ℝ`. -/
noncomputable def npStd (l : List ℚ) : ℝ := Real.sqrt (npVariance l : ℝ)

/-- Boolean form of the comparison `np.std(scores) < threshold`, computed on
the variance so that the embedded `test` stays executable; `pyStdLt_iff`
below proves it equal to the source comparison on the real square root. -/
def pyStdLt (v t : ℚ) : Bool := decide (0 < t ∧ v < t ^ 2)

/-- Embeds `StabilityTester.__init__` (src/calibration/stability.py lines
47-60) with its default arguments. -/
structure StabilityTester where
  n_runs : Nat := 5
  stability_threshold : ℚ := 1/20
deriving DecidableEq, Repr

/-- Embeds `StabilityResult` (src/calibration/stability.py lines 17-27);
the `std` float field is carried as its square `variance` (see `pyStdLt`),
and recovered exactly by `StabilityResult.std`. -/
structure StabilityResult where
  n_runs : Nat
  task_id : Int
  scores : List ℚ
  mean : ℚ
  variance : ℚ
  min : ℚ
  max : ℚ
  is_stable : Bool
deriving DecidableEq, Repr

/-- The `std` field of the source result: `np.std(scores)`. -/
noncomputable def StabilityResult.std (r : StabilityResult) : ℝ :=
  Real.sqrt (r.variance : ℝ)

/-- Embeds `StabilityReport` (src/calibration/stability.py lines 30-37);
the real-valued `avg_std`/`max_std` aggregates are provided separately
below. -/
structure StabilityReport where
  per_task_results : List StabilityResult
  overall_stability : ℚ
  unstable_tasks : List Int
deriving DecidableEq, Repr

/-- The per-task loop body of `StabilityTester.test`
(src/calibration/stability.py lines 79-99): `evaluate_fn` is called once
per run (`for _ in range(self.n_runs)`); a stateful Python evaluation
closure is modelled by passing the run index. -/
def run_scores (tester : StabilityTester) (evaluate_fn : EvalTask → Nat → ℚ)
    (task : EvalTask) : List ℚ :=
  (List.range tester.n_runs).map (evaluate_fn task)

/-- One `StabilityResult` as built by `StabilityTester.test`
(src/calibration/stability.py lines 89-98); `is_stable = (std <
stability_threshold)`. -/
def stability_result_of (tester : StabilityTester) (evaluate_fn : EvalTask → Nat → ℚ)
    (task : EvalTask) : StabilityResult :=
  let scores := run_scores tester evaluate_fn task
  { n_runs := tester.n_runs
    task_id := task.task_id
    scores := scores
    mean := npMean scores
    variance := npVariance scores
    min := npMin scores
    max := npMax scores
    is_stable := pyStdLt (npVariance scores) tester.stability_threshold }

/-- Embeds `StabilityTester.test` (src/calibration/stability.py lines
62-112): per-task results, the stable fraction, and the unstable task
ids. -/
def StabilityTester.test (tester : StabilityTester) (tasks : List EvalTask)
    (evaluate_fn : EvalTask → Nat → ℚ) : StabilityReport :=
  let per_task := tasks.map (stability_result_of tester evaluate_fn)
  let stable_count := (per_task.filter (fun r => r.is_stable)).length
  { per_task_results := per_task
    overall_stability :=
      if per_task = [] then 0 else (stable_count : ℚ) / per_task.length
    unstable_tasks := (per_task.filter (fun r => !r.is_stable)).map (fun r => r.task_id) }

/-- The report aggregate `avg_std` (src/calibration/stability.py line
109): the mean of the per-task standard deviations. -/
noncomputable def report_avg_std (per_task : List StabilityResult) : ℝ :=
  ((per_task.map StabilityResult.std).sum) / per_task.length

/-- The report aggregate `max_std` (src/calibration/stability.py line
110). -/
noncomputable def report_max_std (per_task : List StabilityResult) : ℝ :=
  match per_task.map StabilityResult.std with
  | [] => 0
  | x :: xs => xs.foldl max x

/-- A concrete task for the stability scenarios. -/
def C7_task : EvalTask := { task_id := 1, question := "q", gold_answer := "g" }

/- ===================== core/hashing.py ===================== -/

/-- Lexicographic code-point comparison of strings as character lists:
the Python `str` ordering, which `json.dumps(..., sort_keys=True)` uses to
sort dictionary keys. -/
def keyLe : List Char → List Char → Bool
  | [], _ => true
  | _ :: _, [] => false
  | a :: as, b :: bs =>
      if a.toNat < b.toNat then true
      else if b.toNat < a.toNat then false
      else keyLe as bs

/-- The key comparison on dictionary entries used by the sorted JSON
serialization. -/
def pairKeyLe (p q : String × Int) : Prop := keyLe p.1.data q.1.data = true

instance : DecidableRel pairKeyLe := fun p q => by
  unfold pairKeyLe; infer_instance

/-- Modelled from the spec: Python stdlib
`json.dumps(data, sort_keys=True, ensure_ascii=True)` restricted to
string-keyed integer dictionaries — entries in key-sorted order, each
rendered as quoted key, colon and value, inside braces.  Keys that would
need JSON escaping are outside the scope of the claims; the sort is by code
points, as in Python. -/
def json_dumps_sorted (data : List (String × Int)) : String :=
  "\x7b" ++ String.intercalate (", ")
      ((List.insertionSort pairKeyLe data).map
        (fun p => "\"" ++ p.1 ++ "\": " ++ toString p.2)) ++ "\x7d"

/-- Embeds `hash_string` (src/core/hashing.py lines 51-73) at the default
`sha256` algorithm; the digest itself (Python `hashlib`, an external
library) is abstracted as `sha256hex`. -/
def hash_string (sha256hex : String → String) (content : String) : String :=
  "sha256:" ++ sha256hex content

/-- Embeds `hash_dict` (src/core/hashing.py lines 76-89): the hash of the
key-sorted JSON serialization of the dictionary. -/
def hash_dict (sha256hex : String → String) (data : List (String × Int)) : String :=
  hash_string sha256hex (json_dumps_sorted data)

/- ===================== calibration/cv.py : aggregation =====================
`_aggregate_results` groups `CVResult`s by their parameter-value tuple,
takes per-combo means and selects the best combo with the Python `min` under
a lexicographic tuple key; `_sensitivity_analysis` varies one parameter at
a time around the selected best combination. -/

/-- Embeds `CVResult` (src/calibration/cv.py lines 20-28) as consumed by the
aggregation: `combo` is the tuple `tuple(result.params[n] for n in
param_names)` of the parameter values of the result in `param_names` order, and
`score`/`false_passes`/`false_fails` are the three metrics read via
`metrics.get(..., 0)` (absent metrics default to 0 at the read site, so the
fields carry the read value). -/
structure CVResult where
  fold_idx : Nat
  repeat_idx : Nat
  train_indices : List Nat := []
  test_indices : List Nat := []
  combo : List ℚ
  score : ℚ
  false_passes : ℚ
  false_fails : ℚ
deriving DecidableEq, Repr

/-- The distinct parameter combinations in first-occurrence order: the key
order of the `combo_results` dict built in `_aggregate_results`
(src/calibration/cv.py lines 172-177).  When `run` produced the results,
this is grid-iteration order, because the parameter-combination loop is
outermost. -/
def combo_keys (results : List CVResult) : List (List ℚ) :=
  results.foldl (fun acc r => if r.combo ∈ acc then acc else acc ++ [r.combo]) []

/-- The group of results sharing one combination: the `combo_results` dict
value (src/calibration/cv.py lines 172-177). -/
def combo_group (results : List CVResult) (c : List ℚ) : List CVResult :=
  results.filter (fun r => decide (r.combo = c))

/-- Per-combo mean score (src/calibration/cv.py line 191). -/
def mean_score (results : List CVResult) (c : List ℚ) : ℚ :=
  npMean ((combo_group results c).map (fun r => r.score))

/-- Per-combo mean `false_passes` (src/calibration/cv.py line 194). -/
def mean_false_passes (results : List CVResult) (c : List ℚ) : ℚ :=
  npMean ((combo_group results c).map (fun r => r.false_passes))

/-- Per-combo mean `false_fails` (src/calibration/cv.py line 195). -/
def mean_false_fails (results : List CVResult) (c : List ℚ) : ℚ :=
  npMean ((combo_group results c).map (fun r => r.false_fails))

/-- The Python `<` comparison on the 3-tuples used as the selection key: lexicographic
comparison. -/
def keyLt3 (a b : ℚ × ℚ × ℚ) : Prop :=
  a.1 < b.1 ∨ (a.1 = b.1 ∧ (a.2.1 < b.2.1 ∨ (a.2.1 = b.2.1 ∧ a.2.2 < b.2.2)))

instance : ∀ a b, Decidable (keyLt3 a b) := fun a b => by
  unfold keyLt3; infer_instance

/-- One comparison step of Python `min(iterable, key=...)`: the running
best is replaced only by a strictly smaller key, so the first minimum
wins. -/
def pyMinStep {α : Type _} (key : α → ℚ × ℚ × ℚ) (best y : α) : α :=
  if keyLt3 (key y) (key best) then y else best

/-- Embeds Python `min(iterable, key=...)`; `none` models the `ValueError`
on an empty iterable. -/
def pyMinBy {α : Type _} (key : α → ℚ × ℚ × ℚ) : List α → Option α
  | [] => none
  | x :: xs => some (xs.foldl (pyMinStep key) x)

/-- The selection key of `_aggregate_results` (src/calibration/cv.py lines
202-209): `(mean false_passes, mean false_fails, − mean score)`. -/
def selection_key (results : List CVResult) (c : List ℚ) : ℚ × ℚ × ℚ :=
  (mean_false_passes results c, mean_false_fails results c, - mean_score results c)

/-- Embeds the `best_combo` computation of `_aggregate_results`
(src/calibration/cv.py lines 202-209). -/
def best_combo (results : List CVResult) : Option (List ℚ) :=
  pyMinBy (selection_key results) (combo_keys results)

/-- Combo A of the selection example of the spec: mean false passes 0, mean
false fails 2, mean score 0.70. -/
def C6_resultA : CVResult :=
  { fold_idx := 0, repeat_idx := 0, combo := [0],
    score := 7/10, false_passes := 0, false_fails := 2 }

/-- Combo B of the selection example of the spec: mean false passes 1, mean
false fails 0, mean score 0.90. -/
def C6_resultB : CVResult :=
  { fold_idx := 0, repeat_idx := 0, combo := [1],
    score := 9/10, false_passes := 1, false_fails := 0 }

/-- The filtered result set of `_sensitivity_analysis` for parameter `j`
(src/calibration/cv.py lines 237-243): results agreeing with the selected
best combination on every parameter other than `j`; parameters are indexed
by their position in `param_names`. -/
def sensitivity_filtered (results : List CVResult) (n_params : Nat) (best : List ℚ)
    (j : Nat) : List CVResult :=
  results.filter (fun r =>
    decide (∀ k ∈ List.range n_params, k ≠ j → r.combo.getD k 0 = best.getD k 0))

/-- The distinct values of parameter `j` among the filtered results, in
first-occurrence (dict insertion) order (src/calibration/cv.py lines
246-251). -/
def sensitivity_values (filtered : List CVResult) (j : Nat) : List ℚ :=
  (filtered.map (fun r => r.combo.getD j 0)).foldl
    (fun acc v => if v ∈ acc then acc else acc ++ [v]) []

/-- The mean score of the filtered results whose parameter `j` equals `v`
(src/calibration/cv.py lines 246-254). -/
def sensitivity_value_mean (filtered : List CVResult) (j : Nat) (v : ℚ) : ℚ :=
  npMean ((filtered.filter (fun r => decide (r.combo.getD j 0 = v))).map (fun r => r.score))

/-- The per-value mean scores of parameter `j`: the `value_means` dict
values in insertion order (src/calibration/cv.py line 254). -/
def sensitivity_means (results : List CVResult) (n_params : Nat) (best : List ℚ)
    (j : Nat) : List ℚ :=
  (sensitivity_values (sensitivity_filtered results n_params best j) j).map
    (sensitivity_value_mean (sensitivity_filtered results n_params best j) j)

/-- Embeds the per-parameter entry of `_sensitivity_analysis`
(src/calibration/cv.py lines 253-262): absent (`none`) when no value group
exists, otherwise the mean-score range `max − min` together with the
`critical` flag `range > 0.1`. -/
def sensitivity_entry (results : List CVResult) (n_params : Nat) (best : List ℚ)
    (j : Nat) : Option (ℚ × Bool) :=
  if sensitivity_means results n_params best j = [] then none
  else
    some (npMax (sensitivity_means results n_params best j) -
            npMin (sensitivity_means results n_params best j),
          decide (npMax (sensitivity_means results n_params best j) -
            npMin (sensitivity_means results n_params best j) > 1/10))

/-- Result with parameter value 0 and score 0.50 for the sensitivity
examples. -/
def C8_result_low : CVResult :=
  { fold_idx := 0, repeat_idx := 0, combo := [0],
    score := 1/2, false_passes := 0, false_fails := 0 }

/-- Result with parameter value 1 and score 0.62: range 0.12 against
`C8_result_low`. -/
def C8_result_high : CVResult :=
  { fold_idx := 0, repeat_idx := 0, combo := [1],
    score := 31/50, false_passes := 0, false_fails := 0 }

/-- Result with parameter value 1 and score 0.58: range 0.08 against
`C8_result_low`. -/
def C8_result_mid : CVResult :=
  { fold_idx := 0, repeat_idx := 0, combo := [1],
    score := 29/50, false_passes := 0, false_fails := 0 }

/- ===================== theorems ===================== -/

/- ===================== helper lemmas for the scorer ===================== -/

/-- A gated judge score stays in `[0,1]` when the raw score does. -/
theorem gated_score_bounds (o : JudgeOutput) (h0 : 0 ≤ o.score) (h1 : o.score ≤ 1) :
    0 ≤ gated_score o ∧ gated_score o ≤ 1 := by
  unfold gated_score
  split_ifs <;> constructor <;> first | assumption | norm_num

/-- The consistency penalty is non-negative when the weight and both judge
confidences are non-negative. -/
theorem consistency_penalty_nonneg (config : ScorerConfig) (s n : JudgeOutput)
    (hw : 0 ≤ config.consistency_penalty) (hs : 0 ≤ s.confidence) :
    0 ≤ consistency_penalty_of config s n := by
  unfold consistency_penalty_of
  have hmax : 0 ≤ max s.confidence n.confidence := le_trans hs (le_max_left _ _)
  split_ifs <;> simp_all <;> positivity

/-- The contradiction penalty is non-negative when the weight and the
confidence of the contradiction judge are non-negative. -/
theorem contradiction_penalty_nonneg (config : ScorerConfig) (c : JudgeOutput)
    (hw : 0 ≤ config.contradiction_penalty) (hc : 0 ≤ c.confidence) :
    0 ≤ contradiction_penalty_of config c := by
  unfold contradiction_penalty_of
  split_ifs
  · exact mul_nonneg hw hc
  · exact le_rfl

/-- The hedging penalty is non-negative when the weight is. -/
theorem hedging_penalty_nonneg (config : ScorerConfig) (m : String)
    (hw : 0 ≤ config.hedging_penalty) : 0 ≤ hedging_penalty_of config m := by
  unfold hedging_penalty_of
  split_ifs
  · exact hw
  · exact le_rfl

/-- The selected base score stays in `[0,1]` when both judge scores do. -/
theorem base_score_of_bounds (s n : JudgeOutput)
    (hs0 : 0 ≤ s.score) (hs1 : s.score ≤ 1) (hn0 : 0 ≤ n.score) (hn1 : n.score ≤ 1) :
    0 ≤ base_score_of s n ∧ base_score_of s n ≤ 1 := by
  obtain ⟨hgs0, hgs1⟩ := gated_score_bounds s hs0 hs1
  obtain ⟨hgn0, hgn1⟩ := gated_score_bounds n hn0 hn1
  unfold base_score_of
  split_ifs <;> constructor <;> first | assumption | linarith

/- ===================== claim C1 ===================== -/

/-- Claim C1, counterexample: with both the semantic and the numeric judge
failed (`ok = false`), `HybridScorer.compute` does not place
`all_judges_failed` in `error_taxonomy` (the code records that marker in
`consistency_flags` instead). -/
theorem C1_counterexample :
    "all_judges_failed" ∉
      (compute scorer_config J_failed J_failed J_con_unknown ("") ("")).error_taxonomy := by
  norm_num [compute, J_failed, J_con_unknown, error_taxonomy_of]
  decide

/-- Claim C1 (amended): for every pair of semantic and numeric inputs with
`ok = false` on both, and any contradiction input and answer strings within
the data model (non-negative contradiction confidence, non-negative penalty
weights), `HybridScorer.compute` returns `final_score = 0` and the string
`all_judges_failed` is a member of `consistency_flags`. -/
theorem C1_both_judges_failed (config : ScorerConfig)
    (s n c : JudgeOutput) (m g : String)
    (hs : s.judge_ok = false) (hn : n.judge_ok = false)
    (hw2 : 0 ≤ config.contradiction_penalty) (hw3 : 0 ≤ config.hedging_penalty)
    (hcc : 0 ≤ c.confidence) :
    (compute config s n c m g).final_score = 0 ∧
      "all_judges_failed" ∈ (compute config s n c m g).consistency_flags := by
  have hbase : base_score_of s n = 0 := by simp [base_score_of, hs, hn]
  have hcons : consistency_penalty_of config s n = 0 := by
    simp [consistency_penalty_of, case1_cond, case2_cond, hs]
  have hcp := contradiction_penalty_nonneg config c hw2 hcc
  have hhp := hedging_penalty_nonneg config m hw3
  constructor
  · simp only [compute, hbase, hcons]
    exact max_eq_left (by linarith)
  · simp [compute, base_flags_of, hs, hn]

/-- Witness for C1: the amended claim instantiated at a concrete
both-judges-failed input. -/
theorem C1_witness :
    (compute scorer_config J_failed J_failed J_con_unknown ("") ("")).final_score = 0 ∧
      "all_judges_failed" ∈
        (compute scorer_config J_failed J_failed J_con_unknown ("") ("")).consistency_flags :=
  C1_both_judges_failed scorer_config J_failed J_failed J_con_unknown ("") ("")
    (by norm_num [J_failed]) (by norm_num [J_failed])
    (by norm_num [scorer_config]) (by norm_num [scorer_config])
    (by norm_num [J_con_unknown])

/- ===================== claim C2 ===================== -/

/-- Claim C2: whenever the contradiction judge failed (`ok = false`) or
reported `violated = unknown` (`None`), `HybridScorer.compute` returns
`contradiction_violated = false` and `contradiction_penalty = 0`,
regardless of every other input field. -/
theorem C2_failed_contradiction_never_penalizes (config : ScorerConfig)
    (s n c : JudgeOutput) (m g : String)
    (h : c.judge_ok = false ∨ c.violated = none) :
    (compute config s n c m g).contradiction_violated = false ∧
      (compute config s n c m g).contradiction_penalty = 0 := by
  have hv : contradiction_violated_of c = false := by
    rcases h with h | h <;> simp [contradiction_violated_of, h]
  have hp : contradiction_penalty_of config c = 0 := by
    simp [contradiction_penalty_of, hv]
  exact ⟨by simp [compute, hv], by simp [compute, hp]⟩

/-- Witness for C2: a failed contradiction judge with `violated = true`
recorded, at a concrete input. -/
theorem C2_witness :
    (compute scorer_config J_sem_good J_num_low
        ({ judge_ok := false, violated := some true, confidence := 1 }) ("") ("")).contradiction_violated
        = false ∧
      (compute scorer_config J_sem_good J_num_low
        ({ judge_ok := false, violated := some true, confidence := 1 }) ("") ("")).contradiction_penalty
        = 0 :=
  C2_failed_contradiction_never_penalizes scorer_config J_sem_good J_num_low
    ({ judge_ok := false, violated := some true, confidence := 1 }) ("") ("") (Or.inl rfl)

/- ===================== claim C3 ===================== -/

/-- Claim C3: the end-to-end scenario — semantic `{0.9, 0.9, ok}`, numeric
`{0.1, 0.8, ok}` with numeric content, contradiction `{violated: false,
0.5, ok}` under the default configuration — yields base score `0.5`,
the flag `numeric_error`, consistency penalty `0.18 = 0.2 · max(0.9, 0.8)`
and final score `0.32`. -/
theorem C3_end_to_end_scenario :
    base_score_of J_sem_good J_num_low = 1/2 ∧
    "numeric_error" ∈
      (compute scorer_config J_sem_good J_num_low J_con_ok ("") ("")).consistency_flags ∧
    (compute scorer_config J_sem_good J_num_low J_con_ok ("") ("")).consistency_penalty = 9/50 ∧
    (compute scorer_config J_sem_good J_num_low J_con_ok ("") ("")).final_score = 8/25 ∧
    (compute scorer_config J_sem_good J_num_low J_con_ok ("") ("")).final_score =
      base_score_of J_sem_good J_num_low -
        (compute scorer_config J_sem_good J_num_low J_con_ok ("") ("")).consistency_penalty := by
  refine ⟨?_, ?_, ?_, ?_, ?_⟩
  · norm_num [base_score_of, J_sem_good, J_num_low, gated_score, Option.some_ne_none]
  · norm_num [compute, J_sem_good, J_num_low, J_con_ok, case_flags_of, case1_cond,
      case2_cond, gated_score, base_flags_of, contradiction_violated_of, hedged_cond,
      hedging_count_of]
  · norm_num [compute, scorer_config, J_sem_good, J_num_low, J_con_ok,
      consistency_penalty_of, case1_cond, case2_cond, gated_score]
  · norm_num [compute, scorer_config, J_sem_good, J_num_low, J_con_ok,
      consistency_penalty_of, case1_cond, case2_cond, gated_score, base_score_of,
      contradiction_penalty_of, contradiction_violated_of, hedging_penalty_of,
      hedged_cond, hedging_count_of, Option.some_ne_none]
  · norm_num [compute, scorer_config, J_sem_good, J_num_low, J_con_ok,
      consistency_penalty_of, case1_cond, case2_cond, gated_score, base_score_of,
      contradiction_penalty_of, contradiction_violated_of, hedging_penalty_of,
      hedged_cond, hedging_count_of, Option.some_ne_none]

/- ===================== claim C4 ===================== -/

/-- Claim C4: for every input whose judge scores and confidences lie in
`[0,1]` and whose penalty weights are non-negative, `HybridScorer.compute`
returns `final_score = max(0, base_score − (consistency_penalty +
contradiction_penalty + hedging_penalty))` with
`0 ≤ final_score ≤ base_score ≤ 1`, where `base_score` is selected by the
availability-gating rules. -/
theorem C4_final_score_invariant (config : ScorerConfig)
    (s n c : JudgeOutput) (m g : String)
    (hs0 : 0 ≤ s.score) (hs1 : s.score ≤ 1)
    (hn0 : 0 ≤ n.score) (hn1 : n.score ≤ 1)
    (hc0 : 0 ≤ c.score) (hc1 : c.score ≤ 1)
    (hsc0 : 0 ≤ s.confidence) (hsc1 : s.confidence ≤ 1)
    (hnc0 : 0 ≤ n.confidence) (hnc1 : n.confidence ≤ 1)
    (hcc0 : 0 ≤ c.confidence) (hcc1 : c.confidence ≤ 1)
    (hw1 : 0 ≤ config.consistency_penalty)
    (hw2 : 0 ≤ config.contradiction_penalty)
    (hw3 : 0 ≤ config.hedging_penalty) :
    (compute config s n c m g).final_score =
      max 0 (base_score_of s n -
        ((compute config s n c m g).consistency_penalty +
          (compute config s n c m g).contradiction_penalty +
          (compute config s n c m g).hedging_penalty)) ∧
    0 ≤ (compute config s n c m g).final_score ∧
    (compute config s n c m g).final_score ≤ base_score_of s n ∧
    base_score_of s n ≤ 1 := by
  obtain ⟨hb0, hb1⟩ := base_score_of_bounds s n hs0 hs1 hn0 hn1
  have hp1 := consistency_penalty_nonneg config s n hw1 hsc0
  have hp2 := contradiction_penalty_nonneg config c hw2 hcc0
  have hp3 := hedging_penalty_nonneg config m hw3
  refine ⟨by simp [compute], ?_, ?_, hb1⟩
  · simp only [compute]
    exact le_max_left 0 _
  · simp only [compute]
    exact max_le hb0 (by linarith)

/-- Witness for C4: the invariant instantiated at the concrete end-to-end
scenario inputs under the default configuration. -/
theorem C4_witness :
    (compute scorer_config J_sem_good J_num_low J_con_ok ("") ("")).final_score =
      max 0 (base_score_of J_sem_good J_num_low -
        ((compute scorer_config J_sem_good J_num_low J_con_ok ("") ("")).consistency_penalty +
          (compute scorer_config J_sem_good J_num_low J_con_ok ("") ("")).contradiction_penalty +
          (compute scorer_config J_sem_good J_num_low J_con_ok ("") ("")).hedging_penalty)) ∧
    0 ≤ (compute scorer_config J_sem_good J_num_low J_con_ok ("") ("")).final_score ∧
    (compute scorer_config J_sem_good J_num_low J_con_ok ("") ("")).final_score ≤
      base_score_of J_sem_good J_num_low ∧
    base_score_of J_sem_good J_num_low ≤ 1 :=
  C4_final_score_invariant scorer_config J_sem_good J_num_low J_con_ok ("") ("")
    (by norm_num [J_sem_good]) (by norm_num [J_sem_good])
    (by norm_num [J_num_low]) (by norm_num [J_num_low])
    (by norm_num [J_con_ok]) (by norm_num [J_con_ok])
    (by norm_num [J_sem_good]) (by norm_num [J_sem_good])
    (by norm_num [J_num_low]) (by norm_num [J_num_low])
    (by norm_num [J_con_ok]) (by norm_num [J_con_ok])
    (by norm_num [scorer_config]) (by norm_num [scorer_config])
    (by norm_num [scorer_config])

/- ===================== claim C10 ===================== -/

/-- Claim C10: `HybridScorer.compute` returns `exact_match = false` whenever
`model_answer` or `gold_answer` is the empty string — even though the
normalization-based comparison itself deems two empty strings equal — and performs the normalization-based comparison exactly when both
strings are non-empty. -/
theorem C10_exact_match_empty_gating :
    (∀ (config : ScorerConfig) (s n c : JudgeOutput) (m g : String),
        m = "" ∨ g = "" → (compute config s n c m g).exact_match = false) ∧
    compute_exact_match ("") ("") = true ∧
    (∀ (config : ScorerConfig) (s n c : JudgeOutput) (m g : String),
        m ≠ "" → g ≠ "" →
          (compute config s n c m g).exact_match = compute_exact_match m g) := by
  refine ⟨?_, by decide, ?_⟩
  · intro config s n c m g h
    simp only [compute]
    rw [if_neg]
    rcases h with h | h <;> simp [h]
  · intro config s n c m g hm hg
    simp only [compute]
    rw [if_pos ⟨hm, hg⟩]

/-- Witness for C10: the empty-string gating and the non-empty comparison,
each at a concrete input. -/
theorem C10_witness :
    (compute scorer_config J_sem_good J_num_low J_con_ok ("") ("x")).exact_match = false ∧
    (compute scorer_config J_sem_good J_num_low J_con_ok ("") ("")).exact_match = false ∧
    (compute scorer_config J_sem_good J_num_low J_con_ok ("Yes ") ("  yes")).exact_match =
      compute_exact_match ("Yes ") ("  yes") :=
  ⟨C10_exact_match_empty_gating.1 scorer_config J_sem_good J_num_low J_con_ok ("") ("x")
      (Or.inl rfl),
   C10_exact_match_empty_gating.1 scorer_config J_sem_good J_num_low J_con_ok ("") ("")
      (Or.inl rfl),
   C10_exact_match_empty_gating.2.2 scorer_config J_sem_good J_num_low J_con_ok
      ("Yes ") ("  yes") (by decide) (by decide)⟩

/-- Prepending `a` and then writing `a` over position `k` holding `b` is a
permutation-preserving exchange. -/
theorem perm_cons_set {α : Type _} (a : α) : ∀ (t : List α) (k : Nat) (b : α),
    t[k]? = some b → (a :: t).Perm (b :: t.set k a) := by
  intro t
  induction t with
  | nil => intro k b h; simp at h
  | cons c t' ih =>
    intro k b h
    cases k with
    | zero =>
      rw [List.getElem?_cons_zero, Option.some.injEq] at h
      subst h
      rw [List.set_cons_zero]
      exact List.Perm.swap c a t'
    | succ l =>
      rw [List.getElem?_cons_succ] at h
      rw [List.set_cons_succ]
      exact ((List.Perm.swap c a t').trans ((ih l b h).cons c)).trans
        (List.Perm.swap b c (t'.set l a))

/-- Writing the looked-up values crosswise is a permutation. -/
theorem set_set_perm {α : Type _} : ∀ (x : List α) (i j : Nat) (xi xj : α),
    x[i]? = some xi → x[j]? = some xj → ((x.set i xj).set j xi).Perm x := by
  intro x
  induction x with
  | nil => intro i j xi xj hi _; simp at hi
  | cons h t ih =>
    intro i j xi xj hi hj
    cases i with
    | zero =>
      rw [List.getElem?_cons_zero, Option.some.injEq] at hi
      subst hi
      cases j with
      | zero =>
        rw [List.getElem?_cons_zero, Option.some.injEq] at hj
        subst hj
        rw [List.set_cons_zero, List.set_cons_zero]
      | succ l =>
        rw [List.getElem?_cons_succ] at hj
        rw [List.set_cons_zero, List.set_cons_succ]
        exact (perm_cons_set h t l xj hj).symm
    | succ k =>
      rw [List.getElem?_cons_succ] at hi
      cases j with
      | zero =>
        rw [List.getElem?_cons_zero, Option.some.injEq] at hj
        subst hj
        rw [List.set_cons_succ, List.set_cons_zero]
        exact (perm_cons_set h t k xi hi).symm
      | succ l =>
        rw [List.getElem?_cons_succ] at hj
        rw [List.set_cons_succ, List.set_cons_succ]
        exact (ih k l xi xj hi hj).cons h

/-- A single Fisher–Yates swap permutes the list. -/
theorem listSwap_perm {α : Type _} (x : List α) (i j : Nat) : (listSwap x i j).Perm x := by
  unfold listSwap
  split
  · next xi xj hi hj => exact set_set_perm x i j xi xj hi hj
  · exact List.Perm.refl x

/-- The whole Fisher–Yates pass permutes the list, for every random
stream. -/
theorem shuffleLoop_perm {α : Type _} (rand : Nat → Nat) :
    ∀ (i : Nat) (x : List α), (shuffleLoop rand i x).Perm x := by
  intro i
  induction i with
  | zero => intro x; exact List.Perm.refl x
  | succ i ih =>
    intro x
    exact (ih _).trans (listSwap_perm x (i + 1) (rand (i + 1) % (i + 2)))

/-- The function `pyShuffle` permutes its input, for every random stream. -/
theorem pyShuffle_perm {α : Type _} (rand : Nat → Nat) (x : List α) :
    (pyShuffle rand x).Perm x := shuffleLoop_perm rand (x.length - 1) x

/-- Filtering a flattened list filters each block. -/
theorem filter_flatten_eq {α : Type _} (p : α → Bool) : ∀ (L : List (List α)),
    L.flatten.filter p = (L.map (List.filter p)).flatten := by
  intro L
  induction L with
  | nil => simp
  | cons l L ih => simp [List.filter_append, ih]

/-- Flattening a range-indexed family that is empty everywhere except at
`r < R` yields the block at `r`. -/
theorem flatten_map_single {α : Type _} (f : Nat → List α) : ∀ (R r : Nat), r < R →
    (((List.range R).map (fun x => if x = r then f x else [])).flatten) = f r := by
  intro R
  induction R with
  | zero => intro r h; exact absurd h (Nat.not_lt_zero r)
  | succ R ih =>
    intro r hr
    rw [List.range_succ, List.map_append, List.flatten_append]
    by_cases h : r = R
    · subst h
      have hnil : ((List.range r).map (fun x => if x = r then f x else [])).flatten = [] := by
        rw [List.flatten_eq_nil_iff]
        intro l hl
        rw [List.mem_map] at hl
        obtain ⟨x, hx, rfl⟩ := hl
        rw [List.mem_range] at hx
        rw [if_neg (by omega)]
      simp [hnil]
    · have hrR : r < R := by omega
      rw [ih r hrR]
      have hRr : ¬ (R = r) := by omega
      simp [hRr]

/-- The flattening of the first `m` regular slices of width `fs` is the
`m·fs`-prefix. -/
theorem flatten_slices_take {α : Type _} (l : List α) (fs : Nat) : ∀ (m : Nat),
    ((List.range m).map (fun k => (l.drop (k * fs)).take fs)).flatten = l.take (m * fs) := by
  intro m
  induction m with
  | zero => simp
  | succ m ih =>
    rw [List.range_succ, List.map_append, List.flatten_append, ih]
    rw [Nat.succ_mul, List.take_add]
    simp

/-- Cutting a list into `K ≥ 1` contiguous folds of width `fs`, the last
fold absorbing the remainder, and flattening the folds recovers the list. -/
theorem flatten_fold_tests {α : Type _} (l : List α) (K fs : Nat) (hK : 1 ≤ K) :
    ((List.range K).map (fun k =>
      (l.drop (k * fs)).take
        ((if k < K - 1 then k * fs + fs else l.length) - k * fs))).flatten = l := by
  obtain ⟨Kp, rfl⟩ : ∃ Kp, K = Kp + 1 := ⟨K - 1, by omega⟩
  rw [List.range_succ, List.map_append, List.flatten_append]
  have h1 : ∀ k ∈ List.range Kp,
      (l.drop (k * fs)).take ((if k < Kp + 1 - 1 then k * fs + fs else l.length) - k * fs)
        = (l.drop (k * fs)).take fs := by
    intro k hk
    rw [List.mem_range] at hk
    rw [if_pos (by omega)]
    congr 1
    omega
  rw [List.map_congr_left h1, flatten_slices_take]
  have h2 : ¬ (Kp < Kp + 1 - 1) := by omega
  simp only [List.map_cons, List.map_nil, if_neg h2]
  have h3 : (l.drop (Kp * fs)).take (l.length - Kp * fs) = l.drop (Kp * fs) := by
    apply List.take_of_length_le
    rw [List.length_drop]
  simp [h3, List.take_append_drop]

/-- Decomposing a list at positions `s ≤ e`: prefix, middle slice, suffix. -/
theorem take_slice_drop_eq {α : Type _} (l : List α) (s e : Nat) (hse : s ≤ e) :
    l = l.take s ++ ((l.drop s).take (e - s) ++ l.drop e) := by
  conv_lhs => rw [← List.take_append_drop s l]
  congr 1
  conv_lhs => rw [← List.take_append_drop (e - s) (l.drop s)]
  congr 1
  rw [List.drop_drop]
  congr 1
  omega

/-- Every repeat of `split_block` keeps the whole shuffled index list as the
concatenation of its test folds; hence each sample index occurs exactly once
among the tests of one repeat. -/
theorem split_block_tests_count (cv : KFoldCV) (rand : Nat → Nat → Nat)
    (n r : Nat) (hK : 1 ≤ cv.n_folds) (i : Nat) (hi : i < n) :
    (((split_block cv rand n r).map (fun s => s.2.2.2)).flatten).count i = 1 := by
  simp only [split_block, List.map_map]
  set indices := pyShuffle (rand (cv.random_seed + r)) (List.range n) with hind
  have hperm : indices.Perm (List.range n) := pyShuffle_perm _ _
  have hlen : indices.length = n := by rw [hperm.length_eq, List.length_range]
  have hflat : ((List.range cv.n_folds).map (fun k =>
      (indices.drop (k * (n / cv.n_folds))).take
        ((if k < cv.n_folds - 1 then k * (n / cv.n_folds) + n / cv.n_folds else n)
          - k * (n / cv.n_folds)))).flatten = indices := by
    conv_lhs =>
      rw [show n = indices.length from hlen.symm]
    exact flatten_fold_tests indices cv.n_folds (indices.length / cv.n_folds) hK
  have hcomp : ((fun s : Nat × Nat × List Nat × List Nat => s.2.2.2) ∘ (fun fold_idx =>
      (r, fold_idx, indices.take (fold_idx * (n / cv.n_folds)) ++
        indices.drop (if fold_idx < cv.n_folds - 1 then
          fold_idx * (n / cv.n_folds) + n / cv.n_folds else n),
        (indices.drop (fold_idx * (n / cv.n_folds))).take
          ((if fold_idx < cv.n_folds - 1 then
            fold_idx * (n / cv.n_folds) + n / cv.n_folds else n)
            - fold_idx * (n / cv.n_folds))))) = (fun k =>
      (indices.drop (k * (n / cv.n_folds))).take
        ((if k < cv.n_folds - 1 then k * (n / cv.n_folds) + n / cv.n_folds else n)
          - k * (n / cv.n_folds))) := rfl
  rw [hcomp, hflat, hperm.count_eq]
  exact List.count_eq_one_of_mem (List.nodup_range n) (List.mem_range.mpr hi)

/-- Every split emitted by `generate_splits` has disjoint train/test index
lists whose union is exactly `{0, …, n_samples−1}`. -/
theorem generate_splits_partition (cv : KFoldCV) (rand : Nat → Nat → Nat) (n : Nat) :
    ∀ r f train test, (r, f, train, test) ∈ generate_splits cv rand n →
      train.Disjoint test ∧ (∀ i, (i ∈ train ∨ i ∈ test) ↔ i < n) := by
  intro r f train test hmem
  simp only [generate_splits, List.mem_flatten, List.mem_map] at hmem
  obtain ⟨l, ⟨a, ha, rfl⟩, hin⟩ := hmem
  simp only [split_block, List.mem_map, List.mem_range] at hin
  obtain ⟨k, hk, heq⟩ := hin
  simp only [Prod.mk.injEq] at heq
  obtain ⟨h1, h2, h3, h4⟩ := heq
  set indices := pyShuffle (rand (cv.random_seed + a)) (List.range n) with hind
  set fs := n / cv.n_folds with hfs
  set stop := if k < cv.n_folds - 1 then k * fs + fs else n with hstop
  have hperm : indices.Perm (List.range n) := pyShuffle_perm _ _
  have hlen : indices.length = n := by rw [hperm.length_eq, List.length_range]
  have hse : k * fs ≤ stop := by
    rw [hstop]
    split_ifs with hcase
    · exact Nat.le_add_right _ _
    · have hk1 : k = cv.n_folds - 1 := by omega
      rw [hk1]
      exact le_trans
        (Nat.mul_le_mul_right fs (Nat.sub_le cv.n_folds 1))
        (by rw [hfs, Nat.mul_comm]; exact Nat.div_mul_le_self n cv.n_folds)
  have hperm2 : (train ++ test).Perm indices := by
    rw [← h3, ← h4]
    rw [List.append_assoc]
    refine List.Perm.trans (List.Perm.append_left _ List.perm_append_comm) ?_
    rw [← take_slice_drop_eq indices (k * fs) stop hse]
  have hnd : (train ++ test).Nodup :=
    (hperm2.symm).nodup (hperm.symm.nodup (List.nodup_range n))
  refine ⟨List.disjoint_of_nodup_append hnd, ?_⟩
  intro i
  rw [← List.mem_append, hperm2.mem_iff, hperm.mem_iff, List.mem_range]

/-- A block of `split_block` survives filtering on its own repeat index. -/
theorem split_block_filter_self (cv : KFoldCV) (rand : Nat → Nat → Nat) (n r : Nat) :
    (split_block cv rand n r).filter (fun s => s.1 == r) = split_block cv rand n r := by
  rw [List.filter_eq_self]
  intro a ha
  simp only [split_block, List.mem_map] at ha
  obtain ⟨k, _, rfl⟩ := ha
  simp

/-- A block of `split_block` is emptied by filtering on a different repeat
index. -/
theorem split_block_filter_other (cv : KFoldCV) (rand : Nat → Nat → Nat) (n r r' : Nat)
    (h : r ≠ r') :
    (split_block cv rand n r).filter (fun s => s.1 == r') = [] := by
  rw [List.filter_eq_nil_iff]
  intro a ha
  simp only [split_block, List.mem_map] at ha
  obtain ⟨k, _, rfl⟩ := ha
  simp [h]

/-- Flattening twice equals flattening the blockwise flattening. -/
theorem flatten_flatten_eq {α : Type _} : ∀ (L : List (List (List α))),
    L.flatten.flatten = (L.map List.flatten).flatten := by
  intro L
  induction L with
  | nil => simp
  | cons l L ih => simp [List.flatten_append, ih]

/-- Filtering the generated splits on a repeat index `r < n_repeats` yields
exactly the block of that repeat. -/
theorem generate_splits_filter_repeat (cv : KFoldCV) (rand : Nat → Nat → Nat)
    (n r : Nat) (hr : r < cv.n_repeats) :
    (generate_splits cv rand n).filter (fun s => s.1 == r) = split_block cv rand n r := by
  rw [generate_splits, filter_flatten_eq, List.map_map]
  have hmap : (List.range cv.n_repeats).map
      (List.filter (fun s => s.1 == r) ∘ split_block cv rand n)
      = (List.range cv.n_repeats).map
        (fun x => if x = r then split_block cv rand n x else []) := by
    apply List.map_congr_left
    intro x _
    by_cases hxr : x = r
    · subst hxr
      simp only [Function.comp_apply, if_pos rfl]
      exact split_block_filter_self cv rand n x
    · simp only [Function.comp_apply, if_neg hxr]
      exact split_block_filter_other cv rand n x r hxr
  rw [hmap, flatten_map_single _ _ _ hr]

/-- Claim C5: for every `n_samples ≥ 1` and fixed `(random_seed, n_folds ≥ 1,
n_repeats)` — and every pseudo-random stream — two calls of
`KFoldCV.generate_splits` return identical split lists (in this pure
embedding, definitional equality); every returned split has
`train ∩ test = ∅` and `train ∪ test = {0, …, n_samples−1}`; within each
repeat every sample index appears in exactly one test fold, hence in test
folds exactly `n_repeats` times overall. -/
theorem C5_generate_splits_properties (cv : KFoldCV) (rand : Nat → Nat → Nat)
    (n : Nat) (hn : 1 ≤ n) (hK : 1 ≤ cv.n_folds) :
    generate_splits cv rand n = generate_splits cv rand n ∧
    (∀ r f train test, (r, f, train, test) ∈ generate_splits cv rand n →
       train.Disjoint test ∧ (∀ i, (i ∈ train ∨ i ∈ test) ↔ i < n)) ∧
    (∀ r, r < cv.n_repeats → ∀ i, i < n →
       ((((generate_splits cv rand n).filter (fun s => s.1 == r)).map
           (fun s => s.2.2.2)).flatten).count i = 1) ∧
    (∀ i, i < n →
       (((generate_splits cv rand n).map (fun s => s.2.2.2)).flatten).count i
         = cv.n_repeats) := by
  refine ⟨rfl, generate_splits_partition cv rand n, ?_, ?_⟩
  · intro r hr i hi
    rw [generate_splits_filter_repeat cv rand n r hr]
    exact split_block_tests_count cv rand n r hK i hi
  · intro i hi
    rw [generate_splits, List.map_flatten, List.map_map, flatten_flatten_eq,
      List.map_map, List.count_flatten, List.map_map]
    have hone : ∀ x ∈ List.range cv.n_repeats,
        (List.count i ∘ List.flatten ∘ (List.map (fun s => s.2.2.2) ∘ split_block cv rand n)) x
          = (fun _ => 1) x := by
      intro x _
      exact split_block_tests_count cv rand n x hK i hi
    rw [List.map_congr_left hone, List.map_const', List.length_range,
      List.sum_replicate, smul_eq_mul, Nat.mul_one]

/-- Witness for C5: the properties instantiated at the default `KFoldCV`
configuration, a concrete pseudo-random stream and `n_samples = 3`. -/
theorem C5_witness :
    generate_splits {} (fun s k => s + k) 3 = generate_splits {} (fun s k => s + k) 3 ∧
    (∀ r f train test, (r, f, train, test) ∈ generate_splits {} (fun s k => s + k) 3 →
       train.Disjoint test ∧ (∀ i, (i ∈ train ∨ i ∈ test) ↔ i < 3)) ∧
    (∀ r, r < KFoldCV.n_repeats {} → ∀ i, i < 3 →
       ((((generate_splits {} (fun s k => s + k) 3).filter (fun s => s.1 == r)).map
           (fun s => s.2.2.2)).flatten).count i = 1) ∧
    (∀ i, i < 3 →
       (((generate_splits {} (fun s k => s + k) 3).map (fun s => s.2.2.2)).flatten).count i
         = KFoldCV.n_repeats {}) :=
  C5_generate_splits_properties {} (fun s k => s + k) 3 (by decide) (by decide)

/-- Correctness of `pyStdLt`: it decides `√v < t` exactly. -/
theorem pyStdLt_iff (v t : ℚ) :
    pyStdLt v t = true ↔ Real.sqrt (v : ℝ) < (t : ℝ) := by
  rw [pyStdLt, decide_eq_true_eq]
  constructor
  · rintro ⟨ht, hv⟩
    refine (Real.sqrt_lt' (by exact_mod_cast ht)).mpr ?_
    exact_mod_cast hv
  · intro h
    have ht : (0 : ℝ) < (t : ℝ) := lt_of_le_of_lt (Real.sqrt_nonneg _) h
    have hv := (Real.sqrt_lt' ht).mp h
    exact ⟨by exact_mod_cast ht, by exact_mod_cast hv⟩

/-- The mean of a constant score list of positive length is that
constant. -/
theorem npMean_replicate (c : ℚ) (k : Nat) (hk : k ≠ 0) :
    npMean (List.replicate k c) = c := by
  rw [npMean, List.sum_replicate, List.length_replicate, nsmul_eq_mul]
  exact mul_div_cancel_left₀ c (Nat.cast_ne_zero.mpr hk)

/-- The population variance of a constant score list of positive length is
zero. -/
theorem npVariance_replicate (c : ℚ) (k : Nat) (hk : k ≠ 0) :
    npVariance (List.replicate k c) = 0 := by
  rw [npVariance, npMean_replicate c k hk, List.map_replicate]
  simp

/-- Under a constant-`1.0` evaluation the default tester records zero
variance and a stable verdict for every task. -/
theorem const_result_stable (task : EvalTask) :
    (stability_result_of {} (fun _ _ => 1) task).variance = 0 ∧
    (stability_result_of {} (fun _ _ => 1) task).std = 0 ∧
    (stability_result_of {} (fun _ _ => 1) task).is_stable = true := by
  have hrun : run_scores {} (fun _ _ => (1:ℚ)) task = List.replicate 5 1 := rfl
  have hvar : npVariance (run_scores {} (fun _ _ => (1:ℚ)) task) = 0 := by
    rw [hrun]
    exact npVariance_replicate 1 5 (by norm_num)
  refine ⟨by dsimp only [stability_result_of]; rw [hvar], ?_, ?_⟩
  · rw [StabilityResult.std]
    dsimp only [stability_result_of]
    rw [hvar]
    norm_num
  · dsimp only [stability_result_of]
    rw [hvar, pyStdLt, decide_eq_true_eq]
    norm_num

/-- Under the alternating `0.0`/`1.0` evaluation over the default 5 runs the
tester records variance `0.24 = 6/25`, standard deviation `√(6/25)`, and an
unstable verdict. -/
theorem alternating_result_props (task : EvalTask) :
    (stability_result_of {} (fun _ k => if k % 2 = 0 then 0 else 1) task).variance = 6/25 ∧
    (stability_result_of {} (fun _ k => if k % 2 = 0 then 0 else 1) task).std
      = Real.sqrt ((6 : ℝ)/25) ∧
    (stability_result_of {} (fun _ k => if k % 2 = 0 then 0 else 1) task).is_stable
      = false := by
  have hrun : run_scores {} (fun _ k => if k % 2 = 0 then (0:ℚ) else 1) task
      = [0, 1, 0, 1, 0] := rfl
  have hvar : npVariance (run_scores {} (fun _ k => if k % 2 = 0 then (0:ℚ) else 1) task)
      = 6/25 := by
    rw [hrun]
    norm_num [npVariance, npMean]
  refine ⟨by dsimp only [stability_result_of]; rw [hvar], ?_, ?_⟩
  · rw [StabilityResult.std]
    dsimp only [stability_result_of]
    rw [hvar]
    norm_num
  · dsimp only [stability_result_of]
    rw [hvar, pyStdLt, decide_eq_false_iff_not]
    rintro ⟨-, habs⟩
    norm_num at habs

/-- Claim C7, counterexample: with the alternating `0.0`/`1.0` evaluation
over the default 5 runs, the recorded population standard deviation is
`√0.24 ≈ 0.4899`, not `0.5` as claimed (`0.5` is the value for an even run
count). -/
theorem C7_counterexample :
    (StabilityTester.test {} [C7_task]
        (fun _ k => if k % 2 = 0 then 0 else 1)).per_task_results
      = [stability_result_of {} (fun _ k => if k % 2 = 0 then 0 else 1) C7_task] ∧
    (stability_result_of {} (fun _ k => if k % 2 = 0 then 0 else 1) C7_task).std ≠ 1/2 := by
  refine ⟨rfl, ?_⟩
  rw [(alternating_result_props C7_task).2.1]
  have hlt : Real.sqrt ((6 : ℝ)/25) < 1/2 :=
    (Real.sqrt_lt' (by norm_num)).mpr (by norm_num)
  exact ne_of_lt hlt

/-- Claim C7 (amended): for every task list, `StabilityTester.test` with an
`evaluate_fn` constantly returning `1.0` yields `std = 0` and
`is_stable = true` for every task and `overall_stability = 1.0` for
non-empty task lists; with an `evaluate_fn` alternating `0.0`/`1.0` across
the default 5 runs it yields population variance `0.24` — population std
`√0.24 ≈ 0.4899`, not `0.5` — and `is_stable = false` at the default
threshold `0.05`. -/
theorem C7_stability_results (tasks : List EvalTask) :
    (∀ res ∈ (StabilityTester.test {} tasks (fun _ _ => 1)).per_task_results,
        res.std = 0 ∧ res.is_stable = true) ∧
    (tasks ≠ [] →
        (StabilityTester.test {} tasks (fun _ _ => 1)).overall_stability = 1) ∧
    (∀ task : EvalTask,
        (stability_result_of {} (fun _ k => if k % 2 = 0 then 0 else 1) task).variance
          = 6/25 ∧
        (stability_result_of {} (fun _ k => if k % 2 = 0 then 0 else 1) task).std
          = Real.sqrt ((6 : ℝ)/25) ∧
        (stability_result_of {} (fun _ k => if k % 2 = 0 then 0 else 1) task).is_stable
          = false) := by
  refine ⟨?_, ?_, alternating_result_props⟩
  · intro res hres
    dsimp only [StabilityTester.test] at hres
    rw [List.mem_map] at hres
    obtain ⟨t, -, rfl⟩ := hres
    exact ⟨(const_result_stable t).2.1, (const_result_stable t).2.2⟩
  · intro hne
    dsimp only [StabilityTester.test]
    have hall : (tasks.map (stability_result_of {} (fun _ _ => 1))).filter
        (fun r => r.is_stable) = tasks.map (stability_result_of {} (fun _ _ => 1)) := by
      rw [List.filter_eq_self]
      intro a ha
      rw [List.mem_map] at ha
      obtain ⟨t, -, rfl⟩ := ha
      exact (const_result_stable t).2.2
    have hmapne : tasks.map (stability_result_of {} (fun _ _ => 1)) ≠ [] := by
      intro h
      rw [List.map_eq_nil_iff] at h
      exact hne h
    rw [if_neg hmapne, hall, List.length_map]
    have hlen : (tasks.length : ℚ) ≠ 0 := by
      rw [Nat.cast_ne_zero]
      intro h
      exact hne (List.length_eq_zero.mp h)
    exact div_self hlen

/-- Witness for C7: the conditional parts of the amended claim at a concrete
one-task list. -/
theorem C7_witness :
    (StabilityTester.test {} [C7_task] (fun _ _ => 1)).overall_stability = 1 ∧
    (stability_result_of {} (fun _ k => if k % 2 = 0 then 0 else 1) C7_task).is_stable
      = false :=
  ⟨(C7_stability_results [C7_task]).2.1 (List.cons_ne_nil _ _),
   ((C7_stability_results [C7_task]).2.2 C7_task).2.2⟩

/-- Totality of `keyLe`. -/
theorem keyLe_total : ∀ a b, keyLe a b = true ∨ keyLe b a = true := by
  intro a
  induction a with
  | nil => intro b; left; rfl
  | cons x as ih =>
    intro b
    cases b with
    | nil => right; rfl
    | cons y bs =>
      by_cases h1 : x.toNat < y.toNat
      · left; simp [keyLe, h1]
      · by_cases h2 : y.toNat < x.toNat
        · right; simp [keyLe, h2]
        · rcases ih bs with h | h
          · left; simp [keyLe, h1, h2, h]
          · right; simp [keyLe, h1, h2, h]

/-- Transitivity of `keyLe`. -/
theorem keyLe_trans : ∀ a b c, keyLe a b = true → keyLe b c = true → keyLe a c = true := by
  intro a
  induction a with
  | nil => intro b c _ _; rfl
  | cons x as ih =>
    intro b c hab hbc
    cases b with
    | nil => simp [keyLe] at hab
    | cons y bs =>
      cases c with
      | nil => simp [keyLe] at hbc
      | cons z cs =>
        by_cases h1 : x.toNat < y.toNat
        · by_cases h2 : y.toNat < z.toNat
          · have h3 : x.toNat < z.toNat := lt_trans h1 h2
            simp [keyLe, h3]
          · by_cases h2' : z.toNat < y.toNat
            · simp [keyLe, h2, h2'] at hbc
            · have h3 : x.toNat < z.toNat := by omega
              simp [keyLe, h3]
        · by_cases h1' : y.toNat < x.toNat
          · simp [keyLe, h1, h1'] at hab
          · by_cases h2 : y.toNat < z.toNat
            · have h3 : x.toNat < z.toNat := by omega
              simp [keyLe, h3]
            · by_cases h2' : z.toNat < y.toNat
              · simp [keyLe, h2, h2'] at hbc
              · have h3 : ¬ x.toNat < z.toNat := by omega
                have h3' : ¬ z.toNat < x.toNat := by omega
                simp only [keyLe, if_neg h1, if_neg h1'] at hab
                simp only [keyLe, if_neg h2, if_neg h2'] at hbc
                simp only [keyLe, if_neg h3, if_neg h3']
                exact ih bs cs hab hbc

/-- Antisymmetry of `keyLe`. -/
theorem keyLe_antisymm : ∀ a b, keyLe a b = true → keyLe b a = true → a = b := by
  intro a
  induction a with
  | nil =>
    intro b _ hba
    cases b with
    | nil => rfl
    | cons y bs => simp [keyLe] at hba
  | cons x as ih =>
    intro b hab hba
    cases b with
    | nil => simp [keyLe] at hab
    | cons y bs =>
      by_cases h1 : x.toNat < y.toNat
      · have h1' : ¬ y.toNat < x.toNat := by omega
        simp [keyLe, h1, h1'] at hba
      · by_cases h1' : y.toNat < x.toNat
        · simp [keyLe, h1, h1'] at hab
        · have hnat : x.toNat = y.toNat := by omega
          have hxy : x = y := Char.eq_of_val_eq (UInt32.eq_of_val_eq (Fin.ext hnat))
          subst hxy
          simp only [keyLe, if_neg h1, if_neg h1'] at hab hba
          rw [ih bs hab hba]

/-- Claim C9: `hash_dict` is order-independent — for every two dictionaries
holding exactly the same key/value pairs (same pairs, possibly different
insertion order, keys unique as in a Python dict), the hash strings are
identical, whatever digest function is used. -/
theorem C9_hash_dict_order_independent (sha256hex : String → String)
    (d1 d2 : List (String × Int))
    (hnd : (d1.map Prod.fst).Nodup)
    (hperm : d1.Perm d2) :
    hash_dict sha256hex d1 = hash_dict sha256hex d2 := by
  haveI htot : IsTotal (String × Int) pairKeyLe :=
    ⟨fun p q => keyLe_total p.1.data q.1.data⟩
  haveI htrans : IsTrans (String × Int) pairKeyLe :=
    ⟨fun p q r hpq hqr => keyLe_trans _ _ _ hpq hqr⟩
  have hsortperm : (List.insertionSort pairKeyLe d1).Perm (List.insertionSort pairKeyLe d2) :=
    ((List.perm_insertionSort pairKeyLe d1).trans hperm).trans
      (List.perm_insertionSort pairKeyLe d2).symm
  have hnd1 : ((List.insertionSort pairKeyLe d1).map Prod.fst).Nodup :=
    (((List.perm_insertionSort pairKeyLe d1).map Prod.fst).symm).nodup hnd
  have hnd2 : ((List.insertionSort pairKeyLe d2).map Prod.fst).Nodup :=
    (((List.perm_insertionSort pairKeyLe d2).map Prod.fst).symm).nodup
      ((hperm.map Prod.fst).nodup hnd)
  have hpair1 : List.Pairwise (fun p q : String × Int => pairKeyLe p q ∧ p.1 ≠ q.1)
      (List.insertionSort pairKeyLe d1) :=
    (List.sorted_insertionSort pairKeyLe d1).and (List.pairwise_map.mp hnd1)
  have hpair2 : List.Pairwise (fun p q : String × Int => pairKeyLe p q ∧ p.1 ≠ q.1)
      (List.insertionSort pairKeyLe d2) :=
    (List.sorted_insertionSort pairKeyLe d2).and (List.pairwise_map.mp hnd2)
  haveI hanti : IsAntisymm (String × Int)
      (fun p q : String × Int => pairKeyLe p q ∧ p.1 ≠ q.1) :=
    ⟨fun p q hpq hqp =>
      absurd (String.ext (keyLe_antisymm _ _ hpq.1 hqp.1)) hpq.2⟩
  have hsort : List.insertionSort pairKeyLe d1 = List.insertionSort pairKeyLe d2 :=
    List.eq_of_perm_of_sorted hsortperm hpair1 hpair2
  rw [hash_dict, hash_dict, json_dumps_sorted, json_dumps_sorted, hsort]

/-- Witness for C9: the concrete pair of two-entry dictionaries from the
spec, with
the digest instantiated as the identity. -/
theorem C9_witness :
    hash_dict (fun s => s) [("a", 1), ("b", 2)]
      = hash_dict (fun s => s) [("b", 2), ("a", 1)] :=
  C9_hash_dict_order_independent (fun s => s) [("a", 1), ("b", 2)] [("b", 2), ("a", 1)]
    (by decide) (List.Perm.swap ("b", 2) ("a", 1) [])

/-- Transitivity of `keyLt3`. -/
theorem keyLt3_trans {a b c : ℚ × ℚ × ℚ} (hab : keyLt3 a b) (hbc : keyLt3 b c) :
    keyLt3 a c := by
  obtain ⟨a1, a2, a3⟩ := a
  obtain ⟨b1, b2, b3⟩ := b
  obtain ⟨c1, c2, c3⟩ := c
  unfold keyLt3 at *
  dsimp at *
  rcases hab with h | ⟨he, h | ⟨he2, h⟩⟩ <;>
    rcases hbc with g | ⟨ge, g | ⟨ge2, g⟩⟩ <;>
    first
      | (left; linarith)
      | (right; constructor; linarith; left; linarith)
      | (right; constructor; linarith; right; constructor; linarith; linarith)

/-- Asymmetry of `keyLt3`. -/
theorem keyLt3_asymm {a b : ℚ × ℚ × ℚ} (hab : keyLt3 a b) : ¬ keyLt3 b a := by
  obtain ⟨a1, a2, a3⟩ := a
  obtain ⟨b1, b2, b3⟩ := b
  unfold keyLt3 at *
  dsimp at *
  rcases hab with h | ⟨he, h | ⟨he2, h⟩⟩ <;>
    rintro (g | ⟨ge, g | ⟨ge2, g⟩⟩) <;> linarith

/-- Trichotomy of `keyLt3`. -/
theorem keyLt3_trichotomy (a b : ℚ × ℚ × ℚ) :
    keyLt3 a b ∨ a = b ∨ keyLt3 b a := by
  obtain ⟨a1, a2, a3⟩ := a
  obtain ⟨b1, b2, b3⟩ := b
  unfold keyLt3
  dsimp
  rcases lt_trichotomy a1 b1 with h1 | h1 | h1
  · exact Or.inl (Or.inl h1)
  · rcases lt_trichotomy a2 b2 with h2 | h2 | h2
    · exact Or.inl (Or.inr ⟨h1, Or.inl h2⟩)
    · rcases lt_trichotomy a3 b3 with h3 | h3 | h3
      · exact Or.inl (Or.inr ⟨h1, Or.inr ⟨h2, h3⟩⟩)
      · subst h1; subst h2; subst h3; exact Or.inr (Or.inl rfl)
      · exact Or.inr (Or.inr (Or.inr ⟨h1.symm, Or.inr ⟨h2.symm, h3⟩⟩))
    · exact Or.inr (Or.inr (Or.inr ⟨h1.symm, Or.inl h2⟩))
  · exact Or.inr (Or.inr (Or.inl h1))

/-- If `m` is no larger than `y` (not strictly above it) and `y` is below
`x`, then `m` is below `x`. -/
theorem keyLt3_of_not_lt_of_lt {m y x : ℚ × ℚ × ℚ}
    (h1 : ¬ keyLt3 y m) (h2 : keyLt3 y x) : keyLt3 m x := by
  rcases keyLt3_trichotomy m y with h | h | h
  · exact keyLt3_trans h h2
  · rw [h]; exact h2
  · exact absurd h h1

/-- Below a point that `x` is not below: transfer of strict comparison. -/
theorem keyLt3_lt_of_lt_of_not_lt {a b c : ℚ × ℚ × ℚ}
    (h2 : keyLt3 a b) (h1 : ¬ keyLt3 c b) : keyLt3 a c := by
  rcases keyLt3_trichotomy b c with h | h | h
  · exact keyLt3_trans h2 h
  · rw [← h]; exact h2
  · exact absurd h h1

/-- The fold inside `pyMinBy` returns a member whose key no member
undercuts, and which every strictly earlier member exceeds: the Python `min`
returns the first minimum. -/
theorem pyMin_fold_spec {α : Type _} (key : α → ℚ × ℚ × ℚ) :
    ∀ (xs : List α) (x : α),
      (xs.foldl (pyMinStep key) x) ∈ x :: xs ∧
      (∀ y ∈ x :: xs, ¬ keyLt3 (key y) (key (xs.foldl (pyMinStep key) x))) ∧
      ∃ pre post, x :: xs = pre ++ (xs.foldl (pyMinStep key) x) :: post ∧
        ∀ y ∈ pre, keyLt3 (key (xs.foldl (pyMinStep key) x)) (key y) := by
  intro xs
  induction xs with
  | nil =>
    intro x
    simp only [List.foldl_nil]
    refine ⟨List.mem_cons_self x [], ?_, [], [], rfl, ?_⟩
    · intro y hy
      rcases List.mem_cons.mp hy with rfl | h
      · exact fun h => keyLt3_asymm h h
      · cases h
    · intro z hz
      cases hz
  | cons y ys ih =>
    intro x
    rw [List.foldl_cons]
    by_cases hlt : keyLt3 (key y) (key x)
    · rw [pyMinStep, if_pos hlt]
      obtain ⟨hmem, hmin, pre, post, hsplit, hpre⟩ := ih y
      have hym : ¬ keyLt3 (key y) (key (ys.foldl (pyMinStep key) y)) :=
        hmin y (List.mem_cons_self y ys)
      refine ⟨List.mem_cons_of_mem x hmem, ?_, x :: pre, post, ?_, ?_⟩
      · intro z hz
        rcases List.mem_cons.mp hz with rfl | hz'
        · exact fun hxm => hym (keyLt3_trans hlt hxm)
        · exact hmin z hz'
      · rw [List.cons_append, ← hsplit]
      · intro z hz
        rcases List.mem_cons.mp hz with rfl | hz'
        · exact keyLt3_of_not_lt_of_lt hym hlt
        · exact hpre z hz'
    · rw [pyMinStep, if_neg hlt]
      obtain ⟨hmem, hmin, pre, post, hsplit, hpre⟩ := ih x
      have hxm : ¬ keyLt3 (key x) (key (ys.foldl (pyMinStep key) x)) :=
        hmin x (List.mem_cons_self x ys)
      refine ⟨?_, ?_, ?_⟩
      · rcases List.mem_cons.mp hmem with h | h
        · rw [h]; exact List.mem_cons_self x (y :: ys)
        · exact List.mem_cons_of_mem x (List.mem_cons_of_mem y h)
      · intro z hz
        rcases List.mem_cons.mp hz with rfl | hz'
        · exact hmin z (List.mem_cons_self z ys)
        · rcases List.mem_cons.mp hz' with rfl | hz''
          · exact fun hym => hlt (keyLt3_lt_of_lt_of_not_lt hym hxm)
          · exact hmin z (List.mem_cons_of_mem x hz'')
      · cases pre with
        | nil =>
          rw [List.nil_append] at hsplit
          injection hsplit with h1 h2
          refine ⟨[], y :: post, ?_, ?_⟩
          · rw [List.nil_append, ← h1, h2]
          · intro z hz
            cases hz
        | cons p pre' =>
          rw [List.cons_append] at hsplit
          injection hsplit with h1 h2
          have hpx : keyLt3 (key (ys.foldl (pyMinStep key) x)) (key p) :=
            hpre p (List.mem_cons_self p pre')
          refine ⟨x :: y :: pre', post, ?_, ?_⟩
          · rw [List.cons_append, List.cons_append, ← h2]
          · intro z hz
            rcases List.mem_cons.mp hz with rfl | hz'
            · exact h1.symm ▸ hpx
            · rcases List.mem_cons.mp hz' with rfl | hz''
              · have hmx := h1.symm ▸ hpx
                exact keyLt3_lt_of_lt_of_not_lt hmx hlt
              · exact hpre z (List.mem_cons_of_mem p hz'')

/-- Unfolding of the tuple comparison: a combination `c` that no `c'`
undercuts is lexicographically minimal in the spelled-out sense. -/
theorem not_keyLt3_selection {results : List CVResult} {c c' : List ℚ}
    (h : ¬ keyLt3 (selection_key results c') (selection_key results c)) :
    mean_false_passes results c ≤ mean_false_passes results c' ∧
    (mean_false_passes results c = mean_false_passes results c' →
      mean_false_fails results c ≤ mean_false_fails results c') ∧
    (mean_false_passes results c = mean_false_passes results c' →
      mean_false_fails results c = mean_false_fails results c' →
      mean_score results c' ≤ mean_score results c) := by
  unfold selection_key keyLt3 at h
  push_neg at h
  dsimp at h
  obtain ⟨h1, h2⟩ := h
  refine ⟨h1, fun he => (h2 he.symm).1, fun he hf => ?_⟩
  have := (h2 he.symm).2 hf.symm
  linarith

/-- Claim C6: the best-combination selection is lexicographic — among all
parameter combinations it picks one minimizing mean `false_passes`, then
mean `false_fails` among those tied, then maximizing mean score among those
still tied, any remaining tie resolved to the first combination in
grid-iteration (first-occurrence) order; in particular, with combo A
`{mean false_passes = 0, mean false_fails = 2, mean score = 0.70}` and
combo B `{1, 0, 0.90}`, A is selected. -/
theorem C6_lexicographic_selection :
    (∀ results : List CVResult, combo_keys results ≠ [] →
      ∃ c, best_combo results = some c ∧ c ∈ combo_keys results ∧
        (∀ c' ∈ combo_keys results,
          mean_false_passes results c ≤ mean_false_passes results c' ∧
          (mean_false_passes results c = mean_false_passes results c' →
            mean_false_fails results c ≤ mean_false_fails results c') ∧
          (mean_false_passes results c = mean_false_passes results c' →
            mean_false_fails results c = mean_false_fails results c' →
            mean_score results c' ≤ mean_score results c)) ∧
        (∃ pre post, combo_keys results = pre ++ c :: post ∧
          ∀ c' ∈ pre, keyLt3 (selection_key results c) (selection_key results c'))) ∧
    best_combo [C6_resultA, C6_resultB] = some [0] := by
  constructor
  · intro results hne
    obtain ⟨x, xs, hx⟩ : ∃ x xs, combo_keys results = x :: xs := by
      cases h : combo_keys results with
      | nil => exact absurd h hne
      | cons a l => exact ⟨a, l, rfl⟩
    obtain ⟨hmem, hmin, pre, post, hsplit, hpre⟩ :=
      pyMin_fold_spec (selection_key results) xs x
    refine ⟨xs.foldl (pyMinStep (selection_key results)) x, ?_, ?_, ?_, ?_⟩
    · rw [best_combo, hx, pyMinBy]
    · rw [hx]; exact hmem
    · intro c' hc'
      rw [hx] at hc'
      exact not_keyLt3_selection (hmin c' hc')
    · exact ⟨pre, post, by rw [hx]; exact hsplit, hpre⟩
  · norm_num [best_combo, combo_keys, pyMinBy, pyMinStep, selection_key,
      mean_false_passes, mean_false_fails, mean_score, combo_group, npMean,
      keyLt3, C6_resultA, C6_resultB, List.filter]

/-- Witness for C6: the selection properties at the concrete two-combination
result list. -/
theorem C6_witness :
    ∃ c, best_combo [C6_resultA, C6_resultB] = some c ∧
      c ∈ combo_keys [C6_resultA, C6_resultB] ∧
      (∀ c' ∈ combo_keys [C6_resultA, C6_resultB],
        mean_false_passes [C6_resultA, C6_resultB] c ≤
          mean_false_passes [C6_resultA, C6_resultB] c' ∧
        (mean_false_passes [C6_resultA, C6_resultB] c =
            mean_false_passes [C6_resultA, C6_resultB] c' →
          mean_false_fails [C6_resultA, C6_resultB] c ≤
            mean_false_fails [C6_resultA, C6_resultB] c') ∧
        (mean_false_passes [C6_resultA, C6_resultB] c =
            mean_false_passes [C6_resultA, C6_resultB] c' →
          mean_false_fails [C6_resultA, C6_resultB] c =
            mean_false_fails [C6_resultA, C6_resultB] c' →
          mean_score [C6_resultA, C6_resultB] c' ≤
            mean_score [C6_resultA, C6_resultB] c)) ∧
      (∃ pre post, combo_keys [C6_resultA, C6_resultB] = pre ++ c :: post ∧
        ∀ c' ∈ pre, keyLt3 (selection_key [C6_resultA, C6_resultB] c)
          (selection_key [C6_resultA, C6_resultB] c')) :=
  C6_lexicographic_selection.1 [C6_resultA, C6_resultB]
    (by norm_num [combo_keys, C6_resultA, C6_resultB]; exact List.cons_ne_nil _ _)

/-- A `max`-fold lands on a member of the list it folds over. -/
theorem foldl_max_mem : ∀ (xs : List ℚ) (x : ℚ), xs.foldl max x ∈ x :: xs := by
  intro xs
  induction xs with
  | nil => intro x; exact List.mem_cons_self x []
  | cons y ys ih =>
    intro x
    rw [List.foldl_cons]
    rcases List.mem_cons.mp (ih (max x y)) with hm | hm
    · rcases max_choice x y with h | h
      · rw [h] at hm ⊢; rw [hm]; exact List.mem_cons_self x (y :: ys)
      · rw [h] at hm ⊢; rw [hm]
        exact List.mem_cons_of_mem x (List.mem_cons_self y ys)
    · exact List.mem_cons_of_mem x (List.mem_cons_of_mem y hm)

/-- A `max`-fold dominates every element it folds over. -/
theorem foldl_max_le : ∀ (xs : List ℚ) (x : ℚ), ∀ y ∈ x :: xs, y ≤ xs.foldl max x := by
  intro xs
  induction xs with
  | nil =>
    intro x y hy
    rw [List.mem_singleton] at hy
    rw [hy, List.foldl_nil]
  | cons z zs ih =>
    intro x y hy
    rw [List.foldl_cons]
    rcases List.mem_cons.mp hy with rfl | hy'
    · exact le_trans (le_max_left y z) (ih (max y z) _ (List.mem_cons_self _ zs))
    · rcases List.mem_cons.mp hy' with rfl | hy''
      · exact le_trans (le_max_right x y) (ih (max x y) _ (List.mem_cons_self _ zs))
      · exact ih (max x z) y (List.mem_cons_of_mem _ hy'')

/-- A `min`-fold lands on a member of the list it folds over. -/
theorem foldl_min_mem : ∀ (xs : List ℚ) (x : ℚ), xs.foldl min x ∈ x :: xs := by
  intro xs
  induction xs with
  | nil => intro x; exact List.mem_cons_self x []
  | cons y ys ih =>
    intro x
    rw [List.foldl_cons]
    rcases List.mem_cons.mp (ih (min x y)) with hm | hm
    · rcases min_choice x y with h | h
      · rw [h] at hm ⊢; rw [hm]; exact List.mem_cons_self x (y :: ys)
      · rw [h] at hm ⊢; rw [hm]
        exact List.mem_cons_of_mem x (List.mem_cons_self y ys)
    · exact List.mem_cons_of_mem x (List.mem_cons_of_mem y hm)

/-- A `min`-fold is below every element it folds over. -/
theorem foldl_min_le : ∀ (xs : List ℚ) (x : ℚ), ∀ y ∈ x :: xs, xs.foldl min x ≤ y := by
  intro xs
  induction xs with
  | nil =>
    intro x y hy
    rw [List.mem_singleton] at hy
    rw [hy, List.foldl_nil]
  | cons z zs ih =>
    intro x y hy
    rw [List.foldl_cons]
    rcases List.mem_cons.mp hy with rfl | hy'
    · exact le_trans (ih (min y z) _ (List.mem_cons_self _ zs)) (min_le_left y z)
    · rcases List.mem_cons.mp hy' with rfl | hy''
      · exact le_trans (ih (min x y) _ (List.mem_cons_self _ zs)) (min_le_right x y)
      · exact ih (min x z) y (List.mem_cons_of_mem _ hy'')

/-- Membership of `npMax` in a non-empty list. -/
theorem npMax_mem (l : List ℚ) (h : l ≠ []) : npMax l ∈ l := by
  cases l with
  | nil => exact absurd rfl h
  | cons x xs => exact foldl_max_mem xs x

/-- Domination of every member by `npMax`. -/
theorem npMax_ge (l : List ℚ) : ∀ m ∈ l, m ≤ npMax l := by
  cases l with
  | nil => intro m hm; cases hm
  | cons x xs => exact foldl_max_le xs x

/-- Membership of `npMin` in a non-empty list. -/
theorem npMin_mem (l : List ℚ) (h : l ≠ []) : npMin l ∈ l := by
  cases l with
  | nil => exact absurd rfl h
  | cons x xs => exact foldl_min_mem xs x

/-- Minimality of `npMin` among the members. -/
theorem npMin_le (l : List ℚ) : ∀ m ∈ l, npMin l ≤ m := by
  cases l with
  | nil => intro m hm; cases hm
  | cons x xs => exact foldl_min_le xs x

/-- Claim C8: the sensitivity analysis computes, for each tunable parameter,
the range `max − min` of the mean scores obtained by varying only that
parameter (all others fixed at their best-combination values) and flags it
critical exactly when the range exceeds `0.1`; a range of `0.12` is flagged
critical and a range of `0.08` is not. -/
theorem C8_sensitivity_analysis :
    (∀ (results : List CVResult) (n_params : Nat) (best : List ℚ) (j : Nat)
        (rng : ℚ) (crit : Bool),
      sensitivity_entry results n_params best j = some (rng, crit) →
        sensitivity_means results n_params best j ≠ [] ∧
        npMax (sensitivity_means results n_params best j) ∈
          sensitivity_means results n_params best j ∧
        (∀ m ∈ sensitivity_means results n_params best j,
          m ≤ npMax (sensitivity_means results n_params best j)) ∧
        npMin (sensitivity_means results n_params best j) ∈
          sensitivity_means results n_params best j ∧
        (∀ m ∈ sensitivity_means results n_params best j,
          npMin (sensitivity_means results n_params best j) ≤ m) ∧
        rng = npMax (sensitivity_means results n_params best j) -
          npMin (sensitivity_means results n_params best j) ∧
        (crit = true ↔ rng > 1/10)) ∧
    sensitivity_entry [C8_result_low, C8_result_high] 1 [0] 0 = some (12/100, true) ∧
    sensitivity_entry [C8_result_low, C8_result_mid] 1 [0] 0 = some (8/100, false) := by
  refine ⟨?_, ?_, ?_⟩
  · intro results n_params best j rng crit h
    rw [sensitivity_entry] at h
    by_cases hnil : sensitivity_means results n_params best j = []
    · rw [if_pos hnil] at h
      cases h
    · rw [if_neg hnil, Option.some.injEq, Prod.mk.injEq] at h
      obtain ⟨hrng, hcrit⟩ := h
      refine ⟨hnil, npMax_mem _ hnil, npMax_ge _, npMin_mem _ hnil, npMin_le _,
        hrng.symm, ?_⟩
      rw [← hcrit, decide_eq_true_eq, hrng.symm]
  · norm_num [sensitivity_entry, sensitivity_means, sensitivity_values,
      sensitivity_filtered, sensitivity_value_mean, npMean, npMax, npMin,
      C8_result_low, C8_result_high, List.filter]
    intro hx
    exact absurd hx (List.cons_ne_nil _ _)
  · norm_num [sensitivity_entry, sensitivity_means, sensitivity_values,
      sensitivity_filtered, sensitivity_value_mean, npMean, npMax, npMin,
      C8_result_low, C8_result_mid, List.filter]
    intro hx
    exact absurd hx (List.cons_ne_nil _ _)

/-- Witness for C8: the general characterization applied at the concrete
critical example. -/
theorem C8_witness :
    sensitivity_means [C8_result_low, C8_result_high] 1 [0] 0 ≠ [] ∧
    npMax (sensitivity_means [C8_result_low, C8_result_high] 1 [0] 0) ∈
      sensitivity_means [C8_result_low, C8_result_high] 1 [0] 0 ∧
    (∀ m ∈ sensitivity_means [C8_result_low, C8_result_high] 1 [0] 0,
      m ≤ npMax (sensitivity_means [C8_result_low, C8_result_high] 1 [0] 0)) ∧
    npMin (sensitivity_means [C8_result_low, C8_result_high] 1 [0] 0) ∈
      sensitivity_means [C8_result_low, C8_result_high] 1 [0] 0 ∧
    (∀ m ∈ sensitivity_means [C8_result_low, C8_result_high] 1 [0] 0,
      npMin (sensitivity_means [C8_result_low, C8_result_high] 1 [0] 0) ≤ m) ∧
    (12/100 : ℚ) = npMax (sensitivity_means [C8_result_low, C8_result_high] 1 [0] 0) -
      npMin (sensitivity_means [C8_result_low, C8_result_high] 1 [0] 0) ∧
    (true = true ↔ (12/100 : ℚ) > 1/10) :=
  C8_sensitivity_analysis.1 [C8_result_low, C8_result_high] 1 [0] 0 (12/100) true
    C8_sensitivity_analysis.2.1
